import Mathlib

namespace Htmlutil

/-- A node of the externally parsed HTML tree. The `id` field models the heap
identity of a `*html.Node` pointer (distinct nodes of a well formed Go tree are
distinct heap objects); `tag` models the element tag and `children` the
`FirstChild`/`NextSibling` chain. -/
inductive HTree : Type where
  | node : Nat → String → List HTree → HTree

def HTree.id : HTree → Nat
  | .node i _ _ => i

def HTree.tag : HTree → String
  | .node _ s _ => s

def HTree.children : HTree → List HTree
  | .node _ _ cs => cs

mutual

def hsize : HTree → Nat
  | .node _ _ cs => 1 + lsize cs

def lsize : List HTree → Nat
  | [] => 0
  | c :: cs => hsize c + lsize cs

end

theorem hsize_pos (t : HTree) : 1 ≤ hsize t := by
  cases t with
  | node i s cs => simp [hsize]

theorem lsize_children_lt (t : HTree) : lsize t.children < hsize t := by
  cases t with
  | node i s cs => simp [hsize, HTree.children]

/-- The handle type of the package: `Data` is the underlying tree node (`none`
models a nil `*html.Node`), `Depth` the relative depth, `Match` the last match. -/
inductive Node : Type where
  | mk : Option HTree → Int → Option Node → Node

def Node.Data : Node → Option HTree
  | .mk d _ _ => d

def Node.Depth : Node → Int
  | .mk _ d _ => d

def Node.Match : Node → Option Node
  | .mk _ _ m => m

def Node.dataId (n : Node) : Option Nat :=
  n.Data.map HTree.id

def osize : Option HTree → Nat
  | none => 0
  | some t => hsize t


/-- Keep predicate of the de-duplication splice in `filterConfig.filter`: an
entry `x` of the freshly appended region survives when its `Data` pointer
differs from the `Data` pointer of every entry of `mids` (the region appended
by the inner, predicate-consuming recursion of the same frame). -/
def keepB (mids : List Node) (x : Node) : Bool :=
  mids.all (fun y => x.dataId != y.dataId)

/-- Translation of the method `filterConfig.match`: keep the existing `Match`
when it refers to the same underlying node, otherwise snapshot the current
handle (Go `return &c.Node`). Only the `c.Node` part of the receiver is used. -/
def matchFn (n : Node) : Option Node :=
  match n.Data with
  | none => n.Match
  | some _ =>
    match n.Match with
    | some m => if m.dataId == n.dataId then some m else some n
    | none => some n

mutual

/-- Translation of the recursive closure `fn` inside `filterConfig.filter`.
The shared mutable slice `result` is threaded as `res`; the second component
`tr` instruments the traversal with the list of handles passed to predicate
calls (`filter(c.Node)`), in call order, and has no effect on `res`.
The `Filters` list is nil-free here because `filter` strips nil entries before
the first call of `fn`, so the nil-skipping loop of the inner closure always
pops exactly the head predicate. -/
def fnStep (find : Bool) (F : List (Node → Bool)) (h : Node)
    (res tr : List Node) : List Node × List Node :=
  match hd : h.Data with
  | none => (res, tr)
  | some t =>
    if find && !res.isEmpty then (res, tr)
    else
      match F with
      | [] => (res ++ [h], tr)
      | f :: fs =>
        let start := res.length
        let p1 :=
          if f h then
            if fs.isEmpty then fnStep find [] h res (tr ++ [h])
            else innerLoop find fs t.children (h.Depth + 1) (matchFn h) res (tr ++ [h])
          else (res, tr ++ [h])
        structLoop find (f :: fs) t.children (h.Depth + 1) h.Match start p1.1.length p1.1 p1.2
termination_by 2 * osize h.Data + F.length
decreasing_by
  all_goals simp [osize, hd]
  all_goals have := lsize_children_lt t
  all_goals omega

/-- The child loop of the inner closure of `fn`: after consuming one predicate
with more remaining, recurse into each child with the updated match. -/
def innerLoop (find : Bool) (fs : List (Node → Bool)) (cs : List HTree)
    (d : Int) (m : Option Node) (res tr : List Node) : List Node × List Node :=
  match cs with
  | [] => (res, tr)
  | c :: rest =>
    let p := fnStep find fs (Node.mk (some c) d m) res tr
    innerLoop find fs rest d m p.1 p.2
termination_by 2 * lsize cs + fs.length + 1
decreasing_by
  all_goals simp [osize, lsize, Node.Data]
  all_goals have := hsize_pos c
  all_goals omega

/-- The outer structural child loop of `fn`: recurse into each child with the
original predicate list, then splice out of the newly appended region every
entry whose `Data` pointer equals that of an entry appended by the inner
recursion of this frame (indices `start ≤ i < finish`). -/
def structLoop (find : Bool) (F : List (Node → Bool)) (cs : List HTree)
    (d : Int) (m : Option Node) (start finish : Nat)
    (res tr : List Node) : List Node × List Node :=
  match cs with
  | [] => (res, tr)
  | c :: rest =>
    let p := fnStep find F (Node.mk (some c) d m) res tr
    let res2 := p.1.take finish ++
      (p.1.drop finish).filter (keepB ((p.1.take finish).drop start))
    structLoop find F rest d m start finish res2 p.2
termination_by 2 * lsize cs + F.length + 1
decreasing_by
  all_goals simp [osize, lsize, Node.Data]
  all_goals have := hsize_pos c
  all_goals omega

end


/-- Translation of the struct `filterConfig`. `Filters` entries are optional,
`none` modelling a nil Go closure. -/
structure filterConfig where
  Node : Htmlutil.Node
  Filters : List (Option (Htmlutil.Node → Bool))
  Find : Bool

/-- Translation of the method `filterConfig.filters`: the non-nil filters, in
order. -/
def filterConfig.filters (c : filterConfig) : List (Htmlutil.Node → Bool) :=
  c.Filters.filterMap id

/-- Translation of the method `filterConfig.filter`: strip nil filters, install
the initial match on the root handle, and run `fn`. The first component is the
`result` slice; the second is the instrumentation trace of predicate calls. -/
def filterConfig.filter (c : filterConfig) : List Htmlutil.Node × List Htmlutil.Node :=
  fnStep c.Find c.filters (Htmlutil.Node.mk c.Node.Data c.Node.Depth (matchFn c.Node)) [] []

/-- Translation of the function `filterNodes`. -/
def filterNodes (node : Node) (filters : List (Option (Node → Bool))) : List Node :=
  (filterConfig.filter (filterConfig.mk node filters false)).1

/-- Translation of the function `findNode`. -/
def findNode (node : Node) (filters : List (Option (Node → Bool))) : Node × Bool :=
  match (filterConfig.filter (filterConfig.mk node filters true)).1 with
  | [] => (Node.mk none 0 none, false)
  | e :: _ => (e, true)

/-- Translation of the method `Node.Offset` of htmlutil.go. -/
def Node.Offset (n : Node) : Int :=
  match n.Match with
  | some m => n.Depth - m.Depth
  | none => n.Depth

/-- Translation of the method `Node.MatchDepth` of node.go (same body as
`Node.Offset`). -/
def Node.MatchDepth (n : Node) : Int :=
  match n.Match with
  | some m => n.Depth - m.Depth
  | none => n.Depth

/-- Translation of the method `Node.Parent` of htmlutil.go. The Go code walks
the `Data.Parent` pointer; `anc` supplies that pointer chain explicitly, the
immediate parent first. Each step decrements `Depth`, and a step stops the walk
when `n.FindNode(filters...)` on the moved handle reports a match. -/
def ParentFn (filters : List (Option (Node → Bool))) (anc : List HTree) (n : Node) : Node :=
  match n.Data with
  | none => Node.mk none (n.Depth - 1) n.Match
  | some _ =>
    match anc with
    | [] => Node.mk none (n.Depth - 1) n.Match
    | p :: rest =>
      let n' := Node.mk (some p) (n.Depth - 1) n.Match
      if (findNode n' filters).2 then n' else ParentFn filters rest n'

/-- Translation of `html.Attribute` of the external parser package. -/
structure Attribute where
  Namespace : String
  Key : String
  Val : String
deriving DecidableEq

/-- Loop of `getAttr` over the attribute list. -/
def getAttrLoop (namespace' : String) (keyCI : Bool) (key : String) :
    List Attribute → Attribute × Bool
  | [] => (Attribute.mk "" "" "", false)
  | attr :: rest =>
    if attr.Namespace != namespace' then getAttrLoop namespace' keyCI key rest
    else if keyCI then
      if attr.Key.toLower != key then getAttrLoop namespace' keyCI key rest
      else (attr, true)
    else
      if attr.Key != key then getAttrLoop namespace' keyCI key rest
      else (attr, true)

/-- Translation of the function `getAttr`. -/
def getAttr (namespace' : String) (key : String) (attributes : List Attribute) :
    Attribute × Bool :=
  let keyCI := namespace' == ""
  let key := if keyCI then key.toLower else key
  getAttrLoop namespace' keyCI key attributes

/-- Translation of the function `getAttrVal`. -/
def getAttrVal (namespace' : String) (key : String) (attributes : List Attribute) :
    String :=
  (getAttr namespace' key attributes).1.Val

/-- Error values returned by `Parse`: either the external parser error value,
carried unchanged, or the `errors.New` value for no match. -/
inductive ParseErr (E : Type) : Type where
  | upstream : E → ParseErr E
  | noMatch : ParseErr E

/-- Translation of the function `Parse`. The outcome of the external
`html.Parse` call is supplied as `parsed` (the parser is a third-party
dependency outside this repository): `Except.error e` models a parse error `e`
and `Except.ok t` a successfully parsed document tree. -/
def Parse {E : Type} (parsed : Except E HTree)
    (filters : List (Option (Node → Bool))) : Node × Option (ParseErr E) :=
  match parsed with
  | .error e => (Node.mk none 0 none, some (ParseErr.upstream e))
  | .ok t =>
    match findNode (Node.mk (some t) 0 none) filters with
    | (node, ok) =>
      if ok then (node, none) else (Node.mk none 0 none, some ParseErr.noMatch)


mutual

/-- Accumulator-free denotation of the non-find traversal: what one call of
`fn` appends to `result` for a frame handle `h` and remaining filters `F`. -/
def denotF (F : List (Node → Bool)) (h : Node) : List Node :=
  match hd : h.Data with
  | none => []
  | some t =>
    match F with
    | [] => [h]
    | f :: fs =>
      let I :=
        if f h then
          if fs.isEmpty then [h]
          else denotLoop fs t.children (h.Depth + 1) (matchFn h)
        else []
      I ++ (denotLoop (f :: fs) t.children (h.Depth + 1) h.Match).filter (keepB I)
termination_by 2 * osize h.Data + F.length
decreasing_by
  all_goals simp [osize, hd]
  all_goals have := lsize_children_lt t
  all_goals omega

/-- Denotation of a child loop: concatenation of the per-child denotations. -/
def denotLoop (F : List (Node → Bool)) (cs : List HTree) (d : Int)
    (m : Option Node) : List Node :=
  match cs with
  | [] => []
  | c :: rest => denotF F (Node.mk (some c) d m) ++ denotLoop F rest d m
termination_by 2 * lsize cs + F.length + 1
decreasing_by
  all_goals simp [osize, lsize, Node.Data]
  all_goals have := hsize_pos c
  all_goals omega

end

/-- Unfold lemma for `fnStep` on a handle with nil `Data`. -/
theorem fnStep_none (find : Bool) (F : List (Node → Bool)) (h : Node)
    (res tr : List Node) (hd : h.Data = none) : fnStep find F h res tr = (res, tr) := by
  rw [fnStep.eq_def, hd]

/-- Unfold lemma for `fnStep` on an exhausted filter list. -/
theorem fnStep_nilF (find : Bool) (h : Node) (res tr : List Node) (t : HTree)
    (hd : h.Data = some t) (hs : ¬(find && !res.isEmpty) = true) :
    fnStep find [] h res tr = (res ++ [h], tr) := by
  rw [fnStep.eq_def, hd]
  simp [hs]

/-- Unfold lemma for `fnStep` with at least one filter remaining. -/
theorem fnStep_consF (find : Bool) (f : Node → Bool) (fs : List (Node → Bool))
    (h : Node) (res tr : List Node) (t : HTree) (hd : h.Data = some t)
    (hs : ¬(find && !res.isEmpty) = true) :
    fnStep find (f :: fs) h res tr =
      (let p1 :=
        if f h then
          if fs.isEmpty then fnStep find [] h res (tr ++ [h])
          else innerLoop find fs t.children (h.Depth + 1) (matchFn h) res (tr ++ [h])
        else (res, tr ++ [h])
      structLoop find (f :: fs) t.children (h.Depth + 1) h.Match res.length p1.1.length p1.1 p1.2) := by
  rw [fnStep.eq_def, hd]
  simp only [Bool.not_eq_true] at hs
  simp [hs]

/-- Unfold lemma for `innerLoop` on an empty child list. -/
theorem innerLoop_nilC (find : Bool) (fs : List (Node → Bool)) (d : Int)
    (m : Option Node) (res tr : List Node) :
    innerLoop find fs [] d m res tr = (res, tr) := by
  rw [innerLoop.eq_def]

/-- Unfold lemma for `innerLoop` on a nonempty child list. -/
theorem innerLoop_consC (find : Bool) (fs : List (Node → Bool)) (c : HTree)
    (cs : List HTree) (d : Int) (m : Option Node) (res tr : List Node) :
    innerLoop find fs (c :: cs) d m res tr =
      (let p := fnStep find fs (Node.mk (some c) d m) res tr
      innerLoop find fs cs d m p.1 p.2) := by
  rw [innerLoop.eq_def]

/-- Unfold lemma for `structLoop` on an empty child list. -/
theorem structLoop_nilC (find : Bool) (F : List (Node → Bool)) (d : Int)
    (m : Option Node) (start finish : Nat) (res tr : List Node) :
    structLoop find F [] d m start finish res tr = (res, tr) := by
  rw [structLoop.eq_def]

/-- Unfold lemma for `structLoop` on a nonempty child list. -/
theorem structLoop_consC (find : Bool) (F : List (Node → Bool)) (c : HTree)
    (cs : List HTree) (d : Int) (m : Option Node) (start finish : Nat)
    (res tr : List Node) :
    structLoop find F (c :: cs) d m start finish res tr =
      (let p := fnStep find F (Node.mk (some c) d m) res tr
      let res2 := p.1.take finish ++
        (p.1.drop finish).filter (keepB ((p.1.take finish).drop start))
      structLoop find F cs d m start finish res2 p.2) := by
  rw [structLoop.eq_def]

/-- Unfold lemma for `denotF` on a handle with nil `Data`. -/
theorem denotF_none (F : List (Node → Bool)) (h : Node) (hd : h.Data = none) :
    denotF F h = [] := by
  rw [denotF.eq_def, hd]

/-- Unfold lemma for `denotF` on an exhausted filter list. -/
theorem denotF_nilF (h : Node) (t : HTree) (hd : h.Data = some t) :
    denotF [] h = [h] := by
  rw [denotF.eq_def, hd]

/-- Unfold lemma for `denotF` with at least one filter remaining. -/
theorem denotF_consF (f : Node → Bool) (fs : List (Node → Bool)) (h : Node)
    (t : HTree) (hd : h.Data = some t) :
    denotF (f :: fs) h =
      (let I :=
        if f h then
          if fs.isEmpty then [h]
          else denotLoop fs t.children (h.Depth + 1) (matchFn h)
        else []
      I ++ (denotLoop (f :: fs) t.children (h.Depth + 1) h.Match).filter (keepB I)) := by
  rw [denotF.eq_def, hd]

/-- Unfold lemma for `denotLoop` on an empty child list. -/
theorem denotLoop_nilC (F : List (Node → Bool)) (d : Int) (m : Option Node) :
    denotLoop F [] d m = [] := by
  rw [denotLoop.eq_def]

/-- Unfold lemma for `denotLoop` on a nonempty child list. -/
theorem denotLoop_consC (F : List (Node → Bool)) (c : HTree) (cs : List HTree)
    (d : Int) (m : Option Node) :
    denotLoop F (c :: cs) d m =
      denotF F (Node.mk (some c) d m) ++ denotLoop F cs d m := by
  rw [denotLoop.eq_def]

/-- An empty de-duplication region keeps every entry. -/
theorem keepB_nilB (x : Node) : keepB [] x = true := rfl

end Htmlutil

namespace Htmlutil

/-- The entries appended by the inner, predicate-consuming recursion of the
current frame: positions `start ≤ i < finish` of the result list. -/
def midsOf (start finish : Nat) (res : List Node) : List Node :=
  (res.take finish).drop start

/-- Accumulator lemma for the non-find traversal: a call of `fn` (and of both
of its child loops) only appends to `result`, and what it appends is the
accumulator-free denotation `denotF`. The `structLoop` statement carries the
frame invariant of the de-duplication splice. -/
theorem accFalse :
    (∀ (F : List (Node → Bool)) (h : Node) (res tr : List Node),
      (fnStep false F h res tr).1 = res ++ denotF F h) ∧
    (∀ (F : List (Node → Bool)) (cs : List HTree) (d : Int) (m : Option Node)
        (start finish : Nat) (res tr : List Node),
      start ≤ finish → finish ≤ res.length →
      (∀ x ∈ res.drop finish, keepB (midsOf start finish res) x = true) →
      (structLoop false F cs d m start finish res tr).1
        = res ++ (denotLoop F cs d m).filter (keepB (midsOf start finish res))) ∧
    (∀ (fs : List (Node → Bool)) (cs : List HTree) (d : Int) (m : Option Node)
        (res tr : List Node),
      (innerLoop false fs cs d m res tr).1 = res ++ denotLoop fs cs d m) := by
  refine fnStep.mutual_induct false _ _ _ ?c1 ?c2 ?c3 ?c4 ?c5 ?c6 ?c7 ?c8
  case c1 =>
    intro F h res tr hd
    rw [fnStep_none false F h res tr hd, denotF_none F h hd, List.append_nil]
  case c2 =>
    intro F h res tr t hd hs
    simp at hs
  case c3 =>
    intro h res tr t hd hs
    rw [fnStep_nilF false h res tr t hd hs, denotF_nilF h t hd]
  case c4 =>
    intro h res tr t hd hs f fs
    intro start p1 ih0 ihI ihS
    have hstart : start = res.length := rfl
    have goalEq : (fnStep false (f :: fs) h res tr).1
        = (structLoop false (f :: fs) t.children (h.Depth + 1) h.Match
            res.length p1.1.length p1.1 p1.2).1 := by
      rw [fnStep_consF false f fs h res tr t hd hs]
      rfl
    rw [goalEq]
    have hS : (denotLoop (f :: fs) t.children (h.Depth + 1) h.Match).filter (keepB [])
        = denotLoop (f :: fs) t.children (h.Depth + 1) h.Match :=
      List.filter_eq_self.mpr fun x _ => keepB_nilB x
    by_cases hf : f h
    case neg =>
      have hp1 : p1 = (res, tr ++ [h]) := by
        show (if f h then
          if fs.isEmpty then fnStep false [] h res (tr ++ [h])
          else innerLoop false fs t.children (h.Depth + 1) (matchFn h) res (tr ++ [h])
          else (res, tr ++ [h])) = _
        rw [if_neg hf]
      have hp11 : p1.1 = res := by rw [hp1]
      have hp12 : p1.2 = tr ++ [h] := by rw [hp1]
      rw [hstart, hp11, hp12] at ihS
      have hmids : midsOf res.length res.length res = [] := by simp [midsOf]
      have key := ihS (le_refl _) (le_refl _) (by simp)
      rw [hmids, hS] at key
      rw [hp11, hp12, key, denotF_consF f fs h t hd]
      show res ++ _ = res ++ ((if f h then
          if fs.isEmpty then [h]
          else denotLoop fs t.children (h.Depth + 1) (matchFn h)
        else []) ++ (denotLoop (f :: fs) t.children (h.Depth + 1) h.Match).filter
          (keepB (if f h then
            if fs.isEmpty then [h]
            else denotLoop fs t.children (h.Depth + 1) (matchFn h)
          else [])))
      rw [if_neg hf, List.nil_append, hS]
    case pos =>
      by_cases hfs : fs.isEmpty
      case pos =>
        have hfs' : fs = [] := List.isEmpty_iff.mp hfs
        subst hfs'
        have hp1 : p1 = fnStep false [] h res (tr ++ [h]) := by
          show (if f h then
            if List.isEmpty ([] : List (Node → Bool)) then fnStep false [] h res (tr ++ [h])
            else innerLoop false [] t.children (h.Depth + 1) (matchFn h) res (tr ++ [h])
            else (res, tr ++ [h])) = _
          rw [if_pos hf, if_pos hfs]
        have hp11 : p1.1 = res ++ [h] := by
          rw [hp1, ih0, denotF_nilF h t hd]
        rw [hstart, hp11] at ihS
        have hlen : (res ++ [h]).length = res.length + 1 := by simp
        rw [hlen] at ihS
        have hmids : midsOf res.length (res.length + 1) (res ++ [h]) = [h] := by
          have : (res ++ [h]).take (res.length + 1) = res ++ [h] := by
            apply List.take_of_length_le
            simp
          rw [midsOf, this, List.drop_left]
        have key := ihS (by omega) (by omega) (by simp)
        rw [hmids] at key
        rw [hp11, hlen, key, denotF_consF f [] h t hd]
        show res ++ [h] ++ _ = res ++ ((if f h then
            if List.isEmpty ([] : List (Node → Bool)) then [h]
            else denotLoop [] t.children (h.Depth + 1) (matchFn h)
          else []) ++ (denotLoop (f :: []) t.children (h.Depth + 1) h.Match).filter
            (keepB (if f h then
              if List.isEmpty ([] : List (Node → Bool)) then [h]
              else denotLoop [] t.children (h.Depth + 1) (matchFn h)
            else [])))
        rw [if_pos hf, if_pos hfs, List.append_assoc]
      case neg =>
        have hp1 : p1 = innerLoop false fs t.children (h.Depth + 1) (matchFn h) res
            (tr ++ [h]) := by
          show (if f h then
            if fs.isEmpty then fnStep false [] h res (tr ++ [h])
            else innerLoop false fs t.children (h.Depth + 1) (matchFn h) res (tr ++ [h])
            else (res, tr ++ [h])) = _
          rw [if_pos hf, if_neg hfs]
        have hp11 : p1.1 = res ++ denotLoop fs t.children (h.Depth + 1) (matchFn h) := by
          rw [hp1, ihI]
        rw [hstart, hp11] at ihS
        have hlen : (res ++ denotLoop fs t.children (h.Depth + 1) (matchFn h)).length
            = res.length + (denotLoop fs t.children (h.Depth + 1) (matchFn h)).length := by
          simp
        rw [hlen] at ihS
        have hmids : midsOf res.length
            (res.length + (denotLoop fs t.children (h.Depth + 1) (matchFn h)).length)
            (res ++ denotLoop fs t.children (h.Depth + 1) (matchFn h))
            = denotLoop fs t.children (h.Depth + 1) (matchFn h) := by
          have : (res ++ denotLoop fs t.children (h.Depth + 1) (matchFn h)).take
              (res.length + (denotLoop fs t.children (h.Depth + 1) (matchFn h)).length)
              = res ++ denotLoop fs t.children (h.Depth + 1) (matchFn h) := by
            apply List.take_of_length_le
            simp
          rw [midsOf, this, List.drop_left]
        have key := ihS (by omega) (by omega) (by simp)
        rw [hmids] at key
        rw [hp11, hlen, key, denotF_consF f fs h t hd]
        show res ++ _ ++ _ = res ++ ((if f h then
            if fs.isEmpty then [h]
            else denotLoop fs t.children (h.Depth + 1) (matchFn h)
          else []) ++ (denotLoop (f :: fs) t.children (h.Depth + 1) h.Match).filter
            (keepB (if f h then
              if fs.isEmpty then [h]
              else denotLoop fs t.children (h.Depth + 1) (matchFn h)
            else [])))
        rw [if_pos hf, if_neg hfs, List.append_assoc]
  case c5 =>
    intro F d m start finish res tr h1 h2 h3
    rw [structLoop_nilC, denotLoop_nilC]
    simp
  case c6 =>
    intro F d m start finish res tr c cs
    intro p res2 ih1 ih2
    intro h1 h2 h3
    have hp1 : p.1 = res ++ denotF F (Node.mk (some c) d m) := ih1
    have hres2 : res2 = res ++
        (denotF F (Node.mk (some c) d m)).filter (keepB (midsOf start finish res)) := by
      show p.1.take finish ++
        (p.1.drop finish).filter (keepB ((p.1.take finish).drop start)) = _
      rw [hp1, List.take_append_of_le_length h2, List.drop_append_of_le_length h2,
        List.filter_append]
      have hself : (res.drop finish).filter (keepB ((res.take finish).drop start))
          = res.drop finish := List.filter_eq_self.mpr h3
      rw [hself, ← List.append_assoc, List.take_append_drop, midsOf]
    have hmids2 : midsOf start finish res2 = midsOf start finish res := by
      rw [hres2]
      show ((res ++ _).take finish).drop start = _
      rw [List.take_append_of_le_length h2, midsOf]
    have hlen2 : finish ≤ res2.length := by
      rw [hres2, List.length_append]
      omega
    have hdrop2 : ∀ x ∈ res2.drop finish, keepB (midsOf start finish res2) x = true := by
      intro x hx
      rw [hmids2]
      rw [hres2, List.drop_append_of_le_length h2] at hx
      rcases List.mem_append.mp hx with hx1 | hx1
      · exact h3 x hx1
      · exact List.of_mem_filter hx1
    have key := ih2 h1 hlen2 hdrop2
    calc (structLoop false F (c :: cs) d m start finish res tr).1
        = (structLoop false F cs d m start finish res2 p.2).1 := by
          rw [structLoop_consC]
      _ = res2 ++ (denotLoop F cs d m).filter (keepB (midsOf start finish res2)) := key
      _ = res ++ (denotLoop F (c :: cs) d m).filter (keepB (midsOf start finish res)) := by
          rw [hmids2, hres2, denotLoop_consC, List.filter_append, List.append_assoc]
  case c7 =>
    intro fs d m res tr
    rw [innerLoop_nilC, denotLoop_nilC, List.append_nil]
  case c8 =>
    intro fs d m res tr c cs
    intro p ih1 ih3
    rw [innerLoop_consC, denotLoop_consC]
    show (innerLoop false fs cs d m _ _).1 = _
    rw [ih3, ih1, List.append_assoc]

end Htmlutil

namespace Htmlutil

/-- Unfold lemma for `fnStep` when find mode already holds a result. -/
theorem fnStep_stop (find : Bool) (F : List (Node → Bool)) (h : Node)
    (res tr : List Node) (t : HTree) (hd : h.Data = some t)
    (hs : (find && !res.isEmpty) = true) : fnStep find F h res tr = (res, tr) := by
  rw [fnStep.eq_def, hd]
  simp [hs]

/-- Accumulator lemma for the find-mode traversal: with an empty accumulator a
call returns the first element of the non-find denotation (if any); with a
nonempty accumulator it returns the accumulator unchanged. -/
theorem accTrue :
    (∀ (F : List (Node → Bool)) (h : Node) (res tr : List Node),
      (fnStep true F h res tr).1 = if res.isEmpty then (denotF F h).take 1 else res) ∧
    (∀ (F : List (Node → Bool)) (cs : List HTree) (d : Int) (m : Option Node)
        (start finish : Nat) (res tr : List Node),
      start ≤ finish → finish ≤ res.length →
      (∀ x ∈ res.drop finish, keepB (midsOf start finish res) x = true) →
      (structLoop true F cs d m start finish res tr).1
        = if res.isEmpty then (denotLoop F cs d m).take 1 else res) ∧
    (∀ (fs : List (Node → Bool)) (cs : List HTree) (d : Int) (m : Option Node)
        (res tr : List Node),
      (innerLoop true fs cs d m res tr).1
        = if res.isEmpty then (denotLoop fs cs d m).take 1 else res) := by
  refine fnStep.mutual_induct true _ _ _ ?c1 ?c2 ?c3 ?c4 ?c5 ?c6 ?c7 ?c8
  case c1 =>
    intro F h res tr hd
    rw [fnStep_none true F h res tr hd, denotF_none F h hd]
    cases res <;> simp
  case c2 =>
    intro F h res tr t hd hs
    rw [fnStep_stop true F h res tr t hd hs]
    simp at hs
    simp [hs]
  case c3 =>
    intro h res tr t hd hs
    simp at hs
    rw [fnStep_nilF true h res tr t hd (by simp [hs]), denotF_nilF h t hd, hs]
    simp
  case c4 =>
    intro h res tr t hd hs f fs
    intro start p1 ih0 ihI ihS
    simp at hs
    subst hs
    have hstart : start = 0 := rfl
    have goalEq : (fnStep true (f :: fs) h [] tr).1
        = (structLoop true (f :: fs) t.children (h.Depth + 1) h.Match
            0 p1.1.length p1.1 p1.2).1 := by
      rw [fnStep_consF true f fs h [] tr t hd (by simp)]
      rfl
    rw [goalEq]
    have hS : (denotLoop (f :: fs) t.children (h.Depth + 1) h.Match).filter (keepB [])
        = denotLoop (f :: fs) t.children (h.Depth + 1) h.Match :=
      List.filter_eq_self.mpr fun x _ => keepB_nilB x
    by_cases hf : f h
    case neg =>
      have hp1 : p1 = ([], tr ++ [h]) := by
        show (if f h then
          if fs.isEmpty then fnStep true [] h [] (tr ++ [h])
          else innerLoop true fs t.children (h.Depth + 1) (matchFn h) [] (tr ++ [h])
          else ([], tr ++ [h])) = _
        rw [if_neg hf]
      have hp11 : p1.1 = [] := by rw [hp1]
      have hp12 : p1.2 = tr ++ [h] := by rw [hp1]
      rw [hstart, hp11, hp12] at ihS
      have key := ihS (le_refl _) (le_refl _) (by simp)
      simp only [List.isEmpty_nil, if_true] at key
      rw [hp11, hp12, key, denotF_consF f fs h t hd]
      show _ = if List.isEmpty ([] : List Node) then
          ((if f h then
            if fs.isEmpty then [h]
            else denotLoop fs t.children (h.Depth + 1) (matchFn h)
          else []) ++ (denotLoop (f :: fs) t.children (h.Depth + 1) h.Match).filter
            (keepB (if f h then
              if fs.isEmpty then [h]
              else denotLoop fs t.children (h.Depth + 1) (matchFn h)
            else []))).take 1 else ([] : List Node)
      rw [if_neg hf, List.nil_append, hS]
      simp
    case pos =>
      by_cases hfs : fs.isEmpty
      case pos =>
        have hfs' : fs = [] := List.isEmpty_iff.mp hfs
        subst hfs'
        have hp1 : p1 = fnStep true [] h [] (tr ++ [h]) := by
          show (if f h then
            if List.isEmpty ([] : List (Node → Bool)) then fnStep true [] h [] (tr ++ [h])
            else innerLoop true [] t.children (h.Depth + 1) (matchFn h) [] (tr ++ [h])
            else ([], tr ++ [h])) = _
          rw [if_pos hf, if_pos hfs]
        have hp11 : p1.1 = [h] := by
          rw [hp1, ih0, denotF_nilF h t hd]
          simp
        rw [hstart, hp11] at ihS
        have key := ihS (by simp) (by simp) (by simp)
        simp only [List.isEmpty_cons, if_false, Bool.false_eq_true] at key
        rw [hp11, key, denotF_consF f [] h t hd]
        show _ = if List.isEmpty ([] : List Node) then
            ((if f h then
              if List.isEmpty ([] : List (Node → Bool)) then [h]
              else denotLoop [] t.children (h.Depth + 1) (matchFn h)
            else []) ++ (denotLoop (f :: []) t.children (h.Depth + 1) h.Match).filter
              (keepB (if f h then
                if List.isEmpty ([] : List (Node → Bool)) then [h]
                else denotLoop [] t.children (h.Depth + 1) (matchFn h)
              else []))).take 1 else ([] : List Node)
        rw [if_pos hf, if_pos hfs]
        simp [List.length_take]
      case neg =>
        have hp1 : p1 = innerLoop true fs t.children (h.Depth + 1) (matchFn h) []
            (tr ++ [h]) := by
          show (if f h then
            if fs.isEmpty then fnStep true [] h [] (tr ++ [h])
            else innerLoop true fs t.children (h.Depth + 1) (matchFn h) [] (tr ++ [h])
            else ([], tr ++ [h])) = _
          rw [if_pos hf, if_neg hfs]
        have hp11 : p1.1 = (denotLoop fs t.children (h.Depth + 1) (matchFn h)).take 1 := by
          rw [hp1, ihI]
          simp
        cases hA : denotLoop fs t.children (h.Depth + 1) (matchFn h) with
          | nil =>
            have hp11' : p1.1 = [] := by rw [hp11, hA]; rfl
            rw [hstart, hp11'] at ihS
            have key := ihS (by simp) (by simp) (by simp)
            simp only [List.isEmpty_nil, if_true] at key
            rw [hp11', key, denotF_consF f fs h t hd]
            show _ = if List.isEmpty ([] : List Node) then
                ((if f h then
                  if fs.isEmpty then [h]
                  else denotLoop fs t.children (h.Depth + 1) (matchFn h)
                else []) ++ (denotLoop (f :: fs) t.children (h.Depth + 1) h.Match).filter
                  (keepB (if f h then
                    if fs.isEmpty then [h]
                    else denotLoop fs t.children (h.Depth + 1) (matchFn h)
                  else []))).take 1 else ([] : List Node)
            rw [if_pos hf, if_neg hfs, hA, List.nil_append, hS]
            simp
          | cons a as =>
            have hp11' : p1.1 = [a] := by rw [hp11, hA]; rfl
            rw [hstart, hp11'] at ihS
            have key := ihS (by simp) (by simp) (by simp [midsOf, keepB_nilB])
            simp only [List.isEmpty_cons, if_false, Bool.false_eq_true] at key
            rw [hp11', key, denotF_consF f fs h t hd]
            show _ = if List.isEmpty ([] : List Node) then
                ((if f h then
                  if fs.isEmpty then [h]
                  else denotLoop fs t.children (h.Depth + 1) (matchFn h)
                else []) ++ (denotLoop (f :: fs) t.children (h.Depth + 1) h.Match).filter
                  (keepB (if f h then
                    if fs.isEmpty then [h]
                    else denotLoop fs t.children (h.Depth + 1) (matchFn h)
                  else []))).take 1 else ([] : List Node)
            rw [if_pos hf, if_neg hfs, hA]
            simp
  case c5 =>
    intro F d m start finish res tr h1 h2 h3
    rw [structLoop_nilC, denotLoop_nilC]
    cases res <;> simp
  case c6 =>
    intro F d m start finish res tr c cs
    intro p res2 ih1 ih2
    intro h1 h2 h3
    cases hres : res.isEmpty
    case false =>
      have hres' : res ≠ [] := by
        intro hcon
        rw [hcon] at hres
        simp at hres
      have hp1 : p.1 = res := by
        show (fnStep true F (Node.mk (some c) d m) res tr).1 = res
        rw [ih1, hres]
        simp
      have hres2 : res2 = res := by
        show p.1.take finish ++
          (p.1.drop finish).filter (keepB ((p.1.take finish).drop start)) = _
        rw [hp1]
        have hself : (res.drop finish).filter (keepB ((res.take finish).drop start))
            = res.drop finish := List.filter_eq_self.mpr h3
        rw [hself, List.take_append_drop]
      have key := ih2 h1 (by rw [hres2]; exact h2) (by rw [hres2]; exact h3)
      rw [hres2, hres] at key
      simp only [Bool.false_eq_true, if_false] at key
      have hgoal : (structLoop true F (c :: cs) d m start finish res tr).1
          = (structLoop true F cs d m start finish res2 p.2).1 := by
        rw [structLoop_consC]
      rw [hgoal, hres2, key]
      simp
    case true =>
      have hres' : res = [] := List.isEmpty_iff.mp hres
      subst hres'
      have hf0 : finish = 0 := by
        simp at h2
        exact h2
      have hs0 : start = 0 := by omega
      subst hf0
      subst hs0
      have hp1 : p.1 = (denotF F (Node.mk (some c) d m)).take 1 := by
        show (fnStep true F (Node.mk (some c) d m) [] tr).1 = _
        rw [ih1]
        simp
      have hres2 : res2 = (denotF F (Node.mk (some c) d m)).take 1 := by
        show p.1.take 0 ++ (p.1.drop 0).filter (keepB ((p.1.take 0).drop 0)) = _
        rw [List.take_zero, List.drop_zero, List.nil_append]
        show p.1.filter (keepB []) = _
        rw [List.filter_eq_self.mpr fun x _ => keepB_nilB x, hp1]
      have hgoal : (structLoop true F (c :: cs) d m 0 0 [] tr).1
          = (structLoop true F cs d m 0 0 res2 p.2).1 := by
        rw [structLoop_consC]
      rw [hgoal]
      cases hA : denotF F (Node.mk (some c) d m) with
      | nil =>
        have hres2' : res2 = [] := by rw [hres2, hA]; rfl
        have key := ih2 (le_refl _) (by simp) (by simp [hres2'])
        rw [hres2'] at key
        simp only [List.isEmpty_nil, if_true] at key
        rw [hres2'] at hgoal ⊢
        rw [key, denotLoop_consC, hA, List.nil_append]
        simp
      | cons a as =>
        have hres2' : res2 = [a] := by rw [hres2, hA]; rfl
        have key := ih2 (le_refl _) (by simp [hres2']) (by simp [hres2', midsOf, keepB_nilB])
        rw [hres2'] at key
        simp at key
        rw [hres2'] at hgoal ⊢
        rw [key, denotLoop_consC, hA]
        simp
  case c7 =>
    intro fs d m res tr
    rw [innerLoop_nilC, denotLoop_nilC]
    cases res <;> simp
  case c8 =>
    intro fs d m res tr c cs
    intro p ih1 ih3
    rw [innerLoop_consC, denotLoop_consC]
    show (innerLoop true fs cs d m p.1 p.2).1 = _
    cases hres : res.isEmpty
    case false =>
      have hp1 : p.1 = res := by
        show (fnStep true fs (Node.mk (some c) d m) res tr).1 = res
        rw [ih1, hres]
        simp
      rw [ih3, hp1, hres]
      simp
    case true =>
      have hres' : res = [] := List.isEmpty_iff.mp hres
      subst hres'
      have hp1 : p.1 = (denotF fs (Node.mk (some c) d m)).take 1 := by
        show (fnStep true fs (Node.mk (some c) d m) [] tr).1 = _
        rw [ih1]
        simp
      cases hA : denotF fs (Node.mk (some c) d m) with
      | nil =>
        have hp1' : p.1 = [] := by rw [hp1, hA]; rfl
        rw [ih3, hp1']
        simp
      | cons a as =>
        have hp1' : p.1 = [a] := by rw [hp1, hA]; rfl
        rw [ih3, hp1']
        simp
end Htmlutil

namespace Htmlutil

/-- The result of `filterNodes` is the accumulator-free denotation of the
traversal started on the root handle with its initial match installed. -/
theorem filterNodes_eq_denot (node : Node) (fs : List (Option (Node → Bool))) :
    filterNodes node fs
      = denotF (fs.filterMap id) (Node.mk node.Data node.Depth (matchFn node)) := by
  show (fnStep false (filterConfig.filters (filterConfig.mk node fs false))
      (Node.mk node.Data node.Depth (matchFn node)) [] []).1 = _
  rw [accFalse.1]
  rfl

/-- The find-mode result list is the one-element prefix of the non-find
result list. -/
theorem findList_eq_take1 (node : Node) (fs : List (Option (Node → Bool))) :
    (filterConfig.filter (filterConfig.mk node fs true)).1
      = (filterNodes node fs).take 1 := by
  show (fnStep true (filterConfig.filters (filterConfig.mk node fs true))
      (Node.mk node.Data node.Depth (matchFn node)) [] []).1 = _
  rw [accTrue.1, filterNodes_eq_denot]
  rfl

mutual

/-- Identifiers of the nodes of a subtree, in depth-first pre-order. -/
def preorderIds : HTree → List Nat
  | .node i _ cs => i :: preorderIdsL cs

/-- Identifiers of the nodes of a forest, in depth-first pre-order. -/
def preorderIdsL : List HTree → List Nat
  | [] => []
  | c :: rest => preorderIds c ++ preorderIdsL rest

end

theorem preorderIds_children (t : HTree) :
    preorderIds t = t.id :: preorderIdsL t.children := by
  cases t with
  | node i s cs => rfl

end Htmlutil

namespace Htmlutil

/-- Every entry of the denotation refers to a node of the subtree below the
frame handle: its `Data` identifier occurs in the pre-order identifier list. -/
theorem denotMem :
    (∀ (F : List (Node → Bool)) (h : Node) (x : Node), x ∈ denotF F h →
      ∃ t, h.Data = some t ∧ ∃ j ∈ preorderIds t, x.dataId = some j) ∧
    (∀ (F : List (Node → Bool)) (cs : List HTree) (d : Int) (m : Option Node)
        (x : Node), x ∈ denotLoop F cs d m →
      ∃ j ∈ preorderIdsL cs, x.dataId = some j) := by
  refine denotF.mutual_induct _ _ ?c1 ?c2 ?c3 ?c4 ?c5
  case c1 =>
    intro F h hd x hx
    rw [denotF_none F h hd] at hx
    simp at hx
  case c2 =>
    intro h t hd x hx
    rw [denotF_nilF h t hd] at hx
    simp at hx
    subst hx
    refine ⟨t, hd, t.id, ?_, ?_⟩
    · rw [preorderIds_children]
      simp
    · simp [Node.dataId, hd]
  case c3 =>
    intro h t hd f fs ihI ihS x hx
    rw [denotF_consF f fs h t hd] at hx
    have hx' : x ∈ (if f h then
        if fs.isEmpty then [h]
        else denotLoop fs t.children (h.Depth + 1) (matchFn h)
      else []) ++ (denotLoop (f :: fs) t.children (h.Depth + 1) h.Match).filter
        (keepB (if f h then
          if fs.isEmpty then [h]
          else denotLoop fs t.children (h.Depth + 1) (matchFn h)
        else [])) := hx
    rcases List.mem_append.mp hx' with hxI | hxS
    · by_cases hf : f h
      · rw [if_pos hf] at hxI
        by_cases hfs : fs.isEmpty
        · rw [if_pos hfs] at hxI
          simp at hxI
          subst hxI
          refine ⟨t, hd, t.id, ?_, ?_⟩
          · rw [preorderIds_children]
            simp
          · simp [Node.dataId, hd]
        · rw [if_neg hfs] at hxI
          obtain ⟨j, hj, hxj⟩ := ihI x hxI
          refine ⟨t, hd, j, ?_, hxj⟩
          rw [preorderIds_children]
          exact List.mem_cons_of_mem _ hj
      · rw [if_neg hf] at hxI
        simp at hxI
    · have hxS' := List.mem_of_mem_filter hxS
      obtain ⟨j, hj, hxj⟩ := ihS x hxS'
      refine ⟨t, hd, j, ?_, hxj⟩
      rw [preorderIds_children]
      exact List.mem_cons_of_mem _ hj
  case c4 =>
    intro F d m x hx
    rw [denotLoop_nilC] at hx
    simp at hx
  case c5 =>
    intro F d m c cs ih1 ih2 x hx
    rw [denotLoop_consC] at hx
    rcases List.mem_append.mp hx with hx1 | hx1
    · obtain ⟨t, ht, j, hj, hxj⟩ := ih1 x hx1
      have hct : c = t := Option.some.inj ht
      rw [← hct] at hj
      refine ⟨j, ?_, hxj⟩
      show j ∈ preorderIds c ++ preorderIdsL cs
      exact List.mem_append_left _ hj
    · obtain ⟨j, hj, hxj⟩ := ih2 x hx1
      refine ⟨j, ?_, hxj⟩
      show j ∈ preorderIds c ++ preorderIdsL cs
      exact List.mem_append_right _ hj

end Htmlutil

namespace Htmlutil

/-- On a tree with pairwise distinct node identifiers, the denotation contains
pairwise distinct `Data` references: the de-duplication splice removes exactly
the repeats between the inner region and the structural region of each frame,
and distinct subtrees cannot repeat. -/
theorem denotNodup :
    (∀ (F : List (Node → Bool)) (h : Node),
      (∀ t, h.Data = some t → (preorderIds t).Nodup) →
      ((denotF F h).map Node.dataId).Nodup) ∧
    (∀ (F : List (Node → Bool)) (cs : List HTree) (d : Int) (m : Option Node),
      (preorderIdsL cs).Nodup → ((denotLoop F cs d m).map Node.dataId).Nodup) := by
  refine denotF.mutual_induct _ _ ?c1 ?c2 ?c3 ?c4 ?c5
  case c1 =>
    intro F h hd hw
    rw [denotF_none F h hd]
    simp
  case c2 =>
    intro h t hd hw
    rw [denotF_nilF h t hd]
    simp
  case c3 =>
    intro h t hd f fs ihI ihS hw
    have hwt : (preorderIds t).Nodup := hw t hd
    rw [preorderIds_children] at hwt
    have hwc : (preorderIdsL t.children).Nodup := hwt.of_cons
    rw [denotF_consF f fs h t hd]
    show ((
      (if f h then
        if fs.isEmpty then [h]
        else denotLoop fs t.children (h.Depth + 1) (matchFn h)
      else []) ++ (denotLoop (f :: fs) t.children (h.Depth + 1) h.Match).filter
        (keepB (if f h then
          if fs.isEmpty then [h]
          else denotLoop fs t.children (h.Depth + 1) (matchFn h)
        else []))).map Node.dataId).Nodup
    set I := (if f h then
        if fs.isEmpty then [h]
        else denotLoop fs t.children (h.Depth + 1) (matchFn h)
      else []) with hI
    have hInodup : (I.map Node.dataId).Nodup := by
      rw [hI]
      by_cases hf : f h
      · rw [if_pos hf]
        by_cases hfs : fs.isEmpty
        · rw [if_pos hfs]
          simp
        · rw [if_neg hfs]
          exact ihI hwc
      · rw [if_neg hf]
        simp
    have hSnodup : ((denotLoop (f :: fs) t.children (h.Depth + 1) h.Match).map
        Node.dataId).Nodup := ihS hwc
    rw [List.map_append]
    rw [List.nodup_append]
    refine ⟨hInodup, ?_, ?_⟩
    · have hsub : ((denotLoop (f :: fs) t.children (h.Depth + 1) h.Match).filter
          (keepB I)).map Node.dataId |>.Sublist
          ((denotLoop (f :: fs) t.children (h.Depth + 1) h.Match).map Node.dataId) :=
        List.Sublist.map _ (List.filter_sublist _)
      exact hSnodup.sublist hsub
    · intro a ha hb
      obtain ⟨y, hy, hya⟩ := List.mem_map.mp ha
      obtain ⟨x, hx, hxb⟩ := List.mem_map.mp hb
      have hkeep : keepB I x = true := List.of_mem_filter hx
      have : ∀ z ∈ I, (x.dataId != z.dataId) = true := List.all_eq_true.mp hkeep
      have hne : x.dataId ≠ y.dataId := by
        have := this y hy
        simpa using this
      exact hne (hxb.trans hya.symm)
  case c4 =>
    intro F d m hw
    rw [denotLoop_nilC]
    simp
  case c5 =>
    intro F d m c cs ih1 ih2 hw
    have hw' : (preorderIds c ++ preorderIdsL cs).Nodup := hw
    rw [denotLoop_consC, List.map_append, List.nodup_append]
    have hw1 : (preorderIds c).Nodup := (List.nodup_append.mp hw').1
    have hw2 : (preorderIdsL cs).Nodup := (List.nodup_append.mp hw').2.1
    have hdisj : (preorderIds c).Disjoint (preorderIdsL cs) :=
      (List.nodup_append.mp hw').2.2
    refine ⟨ih1 (fun t ht => by rw [← Option.some.inj ht]; exact hw1), ih2 hw2, ?_⟩
    intro a ha hb
    obtain ⟨y, hy, hya⟩ := List.mem_map.mp ha
    obtain ⟨x, hx, hxb⟩ := List.mem_map.mp hb
    obtain ⟨t, ht, j, hj, hyj⟩ := denotMem.1 F (Node.mk (some c) d m) y hy
    have hct : c = t := Option.some.inj ht
    rw [← hct] at hj
    obtain ⟨j', hj', hxj'⟩ := denotMem.2 F cs d m x hx
    have hjj : j ≠ j' := fun hcon => hdisj hj (hcon ▸ hj')
    have hsome : some j = some j' := by
      rw [← hyj, ← hxj', hya, hxb]
    exact hjj (Option.some.inj hsome)

end Htmlutil

namespace Htmlutil

/-- Characterisation of `findNode` through the non-find result list. -/
theorem findNode_characterisation (node : Node)
    (fs : List (Option (Node → Bool))) :
    findNode node fs
      = (match filterNodes node fs with
        | [] => (Node.mk none 0 none, false)
        | x :: _ => (x, true)) := by
  show (match (filterConfig.filter (filterConfig.mk node fs true)).1 with
    | [] => (Node.mk none 0 none, false)
    | e :: _ => (e, true)) = _
  rw [findList_eq_take1]
  cases filterNodes node fs with
  | nil => rfl
  | cons x xs => rfl

/-- Claim C5: for every root handle and every predicate chain, the find-mode
traversal result is a prefix of length at most 1 of the non-find filter result
for the same root and chain: if the non-find result is non-empty, `findNode`
returns its first element together with `true`; if the non-find result is
empty, `findNode` returns the empty handle together with `false`. -/
theorem findNode_prefix_of_filterNodes (node : Node)
    (fs : List (Option (Node → Bool))) :
    findNode node fs
      = (match filterNodes node fs with
        | [] => (Node.mk none 0 none, false)
        | x :: _ => (x, true)) :=
  findNode_characterisation node fs

/-- Claim C2: on a well formed tree (pairwise distinct node references), no
underlying tree-node reference appears more than once in the list returned by
the non-find filter traversal: all entries have pairwise distinct `Data`
references. -/
theorem filterNodes_pairwise_distinct (root : Node)
    (fs : List (Option (Node → Bool)))
    (hw : ∀ t, root.Data = some t → (preorderIds t).Nodup) :
    List.Pairwise (fun a b => a.dataId ≠ b.dataId) (filterNodes root fs) := by
  rw [filterNodes_eq_denot]
  have hn := denotNodup.1 (fs.filterMap id)
    (Node.mk root.Data root.Depth (matchFn root)) (fun t ht => hw t ht)
  exact List.pairwise_map.mp hn

/-- Concrete tree with four nodes used by the order and duplication claims:
node 0 tagged a with children node 1 (tagged a, with child node 2 tagged c)
and node 3 (tagged b). -/
def bugT : HTree :=
  HTree.node 0 "a" [HTree.node 1 "a" [HTree.node 2 "c" []], HTree.node 3 "b" []]

/-- The element tag of a handle, empty for a nil handle (the model of a
tag-based predicate, the common predicate shape of the test suite). -/
def nodeTag (n : Node) : String :=
  match n.Data with
  | some t => t.tag
  | none => ""

/-- Predicate: the handle's tag is the letter a. -/
def tagIsA : Node → Bool := fun n => nodeTag n == "a"

/-- Predicate: the handle's offset below its last match is 1. -/
def offsetIs1 : Node → Bool := fun n => n.Offset == 1

/-- Witness for C2 at a concrete input: the four-node tree with the two-step
chain has pairwise distinct node identifiers, and the result list of the
traversal has pairwise distinct `Data` references. -/
theorem filterNodes_pairwise_distinct_witness :
    (∀ t, (Node.mk (some bugT) 0 none).Data = some t → (preorderIds t).Nodup)
    ∧ List.Pairwise (fun a b => a.dataId ≠ b.dataId)
        (filterNodes (Node.mk (some bugT) 0 none) [some tagIsA, some offsetIs1]) := by
  have hw : ∀ t, (Node.mk (some bugT) 0 none).Data = some t →
      (preorderIds t).Nodup := by
    intro t ht
    have : bugT = t := Option.some.inj ht
    rw [← this]
    decide
  exact ⟨hw, filterNodes_pairwise_distinct _ _ hw⟩

end Htmlutil

namespace Htmlutil

/-- Claim C1 (code bug evaluation): evaluation of the traversal at the failing input. On the four-node
tree (pre-order of identifiers 0, 1, 2, 3) with the chain tag equals a then
offset equals 1, the non-find result lists node 3 before node 2, although
node 2 is visited before node 3 in the depth-first pre-order walk: the chain
anchored at the root matches nodes 1 and 3 first, and the chain re-anchored at
node 1 then appends node 2 behind them. The package documentation promises
results retaining depth-first order, which this input violates. -/
theorem filterNodes_order_violation :
    (filterNodes (Node.mk (some bugT) 0 none) [some tagIsA, some offsetIs1]).map
        Node.dataId = [some 1, some 3, some 2]
    ∧ preorderIds bugT = [0, 1, 2, 3]
    ∧ ¬ ((filterNodes (Node.mk (some bugT) 0 none)
          [some tagIsA, some offsetIs1]).map Node.dataId).Sublist
        ((preorderIds bugT).map some) := by
  have heval : (filterNodes (Node.mk (some bugT) 0 none)
      [some tagIsA, some offsetIs1]).map Node.dataId = [some 1, some 3, some 2] := by
    simp [filterNodes, filterConfig.filter, filterConfig.filters, fnStep, innerLoop,
      structLoop, matchFn, keepB, bugT, tagIsA, offsetIs1, nodeTag, Node.Data,
      Node.Depth, Node.Match, Node.dataId, HTree.children, HTree.tag, HTree.id,
      Node.Offset]
  refine ⟨heval, by decide, ?_⟩
  rw [heval]
  decide

/-- A one-node tree. -/
def leafT : HTree := HTree.node 0 "a" []

/-- A two-node tree: node 0 with a single child node 1. -/
def twoT : HTree := HTree.node 0 "a" [HTree.node 1 "b" []]

/-- Claim C3 counterexample: with an empty chain the returned handle is not the root
handle itself: the traversal installs the initial self match, so the returned
handle differs from an input handle whose `Match` field is nil. -/
theorem filter_empty_chain_not_input_handle :
    filterNodes (Node.mk (some leafT) 0 none) []
      ≠ [Node.mk (some leafT) 0 none] := by
  intro hcon
  have hmap := congrArg (List.map (fun n => n.Match.isSome)) hcon
  simp [filterNodes, filterConfig.filter, filterConfig.filters, fnStep, matchFn,
    leafT, Node.Data, Node.Depth, Node.Match] at hmap

/-- Any chain whose stripped form is empty yields exactly the root handle with
its initial self match installed. -/
theorem filterNodes_stripped_empty (root : Node)
    (fs : List (Option (Node → Bool))) (hroot : root.Data ≠ none)
    (hfs : fs.filterMap id = []) :
    filterNodes root fs = [Node.mk root.Data root.Depth (matchFn root)] := by
  rw [filterNodes_eq_denot, hfs]
  obtain ⟨t, ht⟩ := Option.ne_none_iff_exists'.mp hroot
  exact denotF_nilF _ t ht

/-- Claim C3 amended: with a non-null root and an empty predicate chain the
traversal returns exactly one result, the root handle with the initial self
match installed in its `Match` field (its `Data` and `Depth` are the root's). -/
theorem filter_empty_chain_returns_root (root : Node) (hroot : root.Data ≠ none) :
    filterNodes root [] = [Node.mk root.Data root.Depth (matchFn root)] :=
  filterNodes_stripped_empty root [] hroot rfl

/-- Witness for the amended C3 at a concrete input. -/
theorem filter_empty_chain_returns_root_witness :
    (Node.mk (some leafT) 0 none).Data ≠ none
    ∧ filterNodes (Node.mk (some leafT) 0 none) []
      = [Node.mk (some leafT) 0 (matchFn (Node.mk (some leafT) 0 none))] :=
  ⟨by simp [Node.Data], filter_empty_chain_returns_root _ (by simp [Node.Data])⟩

/-- Claim C4 counterexample: a chain that is empty after discarding nil entries does
not make the traversal return every node of the subtree: on a two-node tree
the result has a single entry. -/
theorem filter_nil_chain_not_whole_subtree :
    (filterNodes (Node.mk (some twoT) 0 none) [none]).length
      < (preorderIds twoT).length := by
  have heval : (filterNodes (Node.mk (some twoT) 0 none) [none]).length = 1 := by
    simp [filterNodes, filterConfig.filter, filterConfig.filters, fnStep, matchFn,
      twoT, Node.Data, Node.Depth, Node.Match]
  rw [heval]
  decide

/-- Claim C4 amended: a chain that is empty after discarding nil entries behaves
exactly like the empty chain: the traversal returns exactly one result, the
root handle with the initial self match installed, not the whole subtree. -/
theorem filter_nil_stripped_chain_returns_root (root : Node)
    (fs : List (Option (Node → Bool))) (hroot : root.Data ≠ none)
    (hfs : fs.filterMap id = []) :
    filterNodes root fs = filterNodes root []
    ∧ filterNodes root fs = [Node.mk root.Data root.Depth (matchFn root)] := by
  have hmain := filterNodes_stripped_empty root fs hroot hfs
  exact ⟨hmain.trans (filterNodes_stripped_empty root [] hroot rfl).symm, hmain⟩

/-- Witness for the amended C4 at a concrete input: the chain holding one nil
entry strips to the empty chain and yields exactly the root handle. -/
theorem filter_nil_stripped_chain_returns_root_witness :
    ((Node.mk (some twoT) 0 none).Data ≠ none
      ∧ (List.filterMap id ([none] : List (Option (Node → Bool))) = []))
    ∧ filterNodes (Node.mk (some twoT) 0 none) [none]
      = [Node.mk (some twoT) 0 (matchFn (Node.mk (some twoT) 0 none))] :=
  ⟨⟨by simp [Node.Data], by simp⟩,
    (filter_nil_stripped_chain_returns_root _ _ (by simp [Node.Data]) (by simp)).2⟩

end Htmlutil

namespace Htmlutil

/-- Claim C6 counterexample: on a handle with nil `Match` and depth 5, `Offset`
returns 5, not 0: the null-match branch returns the handle's own depth. -/
theorem offset_nil_match_not_zero :
    Node.Offset (Node.mk none 5 none) ≠ 0 := by decide

/-- Claim C6 amended: `Offset` (and the identical `MatchDepth` of node.go) is the
handle's depth minus the match's depth when `Match` is non-null, and the
handle's own depth (not 0) when `Match` is null. -/
theorem offset_eq_depth_minus_match_depth (n : Node) :
    (n.Match = none → Node.Offset n = n.Depth)
    ∧ (∀ m, n.Match = some m → Node.Offset n = n.Depth - m.Depth)
    ∧ Node.Offset n = Node.MatchDepth n := by
  refine ⟨?_, ?_, ?_⟩
  · intro hm
    simp [Node.Offset, hm]
  · intro m hm
    simp [Node.Offset, hm]
  · cases hm : n.Match <;> simp [Node.Offset, Node.MatchDepth, hm]

/-- Witness for the amended C6 at concrete handles. -/
theorem offset_eq_depth_minus_match_depth_witness :
    Node.Offset (Node.mk none 5 none) = 5
    ∧ Node.Offset (Node.mk none 3 (some (Node.mk none 1 none))) = 3 - 1 :=
  ⟨(offset_eq_depth_minus_match_depth (Node.mk none 5 none)).1 rfl,
    (offset_eq_depth_minus_match_depth
      (Node.mk none 3 (some (Node.mk none 1 none)))).2.1 (Node.mk none 1 none) rfl⟩

/-- Matcher written from the wording of the specification for attribute
lookup: the namespace must be equal, and the key comparison is
case-insensitive (both sides lowercased) exactly when the namespace is empty. -/
def specAttrKeyMatches (namespace' key : String) (a : Attribute) : Bool :=
  a.Namespace == namespace' &&
    (if namespace' == "" then a.Key.toLower == key.toLower else a.Key == key)

/-- The loop of `getAttr` returns the first attribute accepted by its
namespace and key tests, in encounter order. -/
theorem getAttrLoop_find (ns : String) (keyCI : Bool) (key' : String)
    (attrs : List Attribute) :
    getAttrLoop ns keyCI key' attrs
      = (match attrs.find? (fun a => a.Namespace == ns &&
            (if keyCI then a.Key.toLower == key' else a.Key == key')) with
        | some a => (a, true)
        | none => (Attribute.mk "" "" "", false)) := by
  induction attrs with
  | nil => rfl
  | cons a rest ih =>
    by_cases hns : a.Namespace = ns
    · cases keyCI with
      | true =>
        by_cases hk : a.Key.toLower = key'
        · simp [getAttrLoop, List.find?, hns, hk]
        · have hkb : (a.Key.toLower == key') = false := by simp [hk]
          simp [getAttrLoop, List.find?, hns, hkb, ih]
          exact fun hcon => absurd hcon hk
      | false =>
        by_cases hk : a.Key = key'
        · simp [getAttrLoop, List.find?, hns, hk]
        · have hkb : (a.Key == key') = false := by simp [hk]
          simp [getAttrLoop, List.find?, hns, hkb, ih]
          exact fun hcon => absurd hcon hk
    · have hnsb : (a.Namespace == ns) = false := by simp [hns]
      cases keyCI with
      | true => simp [getAttrLoop, List.find?, hns, hnsb, ih]
      | false => simp [getAttrLoop, List.find?, hns, hnsb, ih]

/-- Claim C9: `getAttr` returns the first attribute in encounter order matching the
namespace exactly and the key with the case convention of the specification
(case-insensitive exactly when the namespace is empty), with `found = false`
and an empty value from `getAttrVal` when no attribute qualifies. -/
theorem getAttr_first_qualifying (namespace' key : String)
    (attrs : List Attribute) :
    getAttr namespace' key attrs
      = (match attrs.find? (specAttrKeyMatches namespace' key) with
        | some a => (a, true)
        | none => (Attribute.mk "" "" "", false))
    ∧ getAttrVal namespace' key attrs
      = (match attrs.find? (specAttrKeyMatches namespace' key) with
        | some a => a.Val
        | none => "") := by
  have hpred : (fun a => a.Namespace == namespace' &&
      (if (namespace' == "") then a.Key.toLower ==
          (if (namespace' == "") = true then key.toLower else key)
        else a.Key == (if (namespace' == "") = true then key.toLower else key)))
      = specAttrKeyMatches namespace' key := by
    funext a
    by_cases hCI : namespace' = ""
    · simp [specAttrKeyMatches, hCI]
    · simp [specAttrKeyMatches, hCI]
  have main : getAttr namespace' key attrs
      = (match attrs.find? (specAttrKeyMatches namespace' key) with
        | some a => (a, true)
        | none => (Attribute.mk "" "" "", false)) := by
    show getAttrLoop namespace' (namespace' == "")
      (if (namespace' == "") = true then key.toLower else key) attrs = _
    rw [getAttrLoop_find, hpred]
  refine ⟨main, ?_⟩
  show (getAttr namespace' key attrs).1.Val = _
  rw [main]
  cases attrs.find? (specAttrKeyMatches namespace' key) <;> rfl

end Htmlutil

namespace Htmlutil

/-- Claim C10: `Parse` returns a nil error exactly when the external parser succeeds
and the traversal from the document root matches the chain; a parser error
value is carried back unchanged with an empty handle, and a successful parse
without a match yields an empty handle and the no-match error. The match case
is characterised through the non-find result list: the returned handle is its
first element. -/
theorem Parse_error_cases {E : Type} (parsed : Except E HTree)
    (fs : List (Option (Node → Bool))) :
    Parse parsed fs
      = (match parsed with
        | .error e => (Node.mk none 0 none, some (ParseErr.upstream e))
        | .ok t =>
          match filterNodes (Node.mk (some t) 0 none) fs with
          | [] => (Node.mk none 0 none, some ParseErr.noMatch)
          | x :: _ => (x, none)) := by
  cases parsed with
  | error e => rfl
  | ok t =>
    show (match findNode (Node.mk (some t) 0 none) fs with
      | (node, ok) =>
        if ok then (node, none) else (Node.mk none 0 none, some ParseErr.noMatch)) = _
    rw [findNode_characterisation]
    show _ = (match filterNodes (Node.mk (some t) 0 none) fs with
      | [] => (Node.mk none 0 none, some ParseErr.noMatch)
      | x :: _ => (x, none))
    cases filterNodes (Node.mk (some t) 0 none) fs with
    | nil => rfl
    | cons x xs => rfl

end Htmlutil

namespace Htmlutil

/-- The subtree of the grandparent in the C8 counterexample: node 0 tagged g,
child node 1 tagged p, grandchild node 2 tagged x. -/
def gT : HTree := HTree.node 0 "g" [HTree.node 1 "p" [HTree.node 2 "x" []]]

/-- The subtree of the parent in the C8 counterexample. -/
def pT : HTree := HTree.node 1 "p" [HTree.node 2 "x" []]

/-- The node itself in the C8 counterexample. -/
def xT : HTree := HTree.node 2 "x" []

/-- Predicate matching exactly the node with identifier 2 (the receiver of the
`Parent` call, not any of its ancestors). -/
def idIs2 : Node → Bool := fun n => n.dataId == some 2

/-- Claim C8 counterexample: `Parent` with a predicate satisfied by no strict
ancestor (only by the receiver itself) does not return a null-node handle: it
returns the immediate parent, whose own handle fails the predicate, because
the walk stops at the first ancestor whose subtree contains a find-mode match
of the chain. -/
theorem Parent_subtree_match_counterexample :
    (ParentFn [some idIs2] [pT, gT] (Node.mk (some xT) 2 none)).dataId = some 1
    ∧ idIs2 (ParentFn [some idIs2] [pT, gT] (Node.mk (some xT) 2 none)) = false := by
  constructor <;>
    simp [ParentFn, findNode, filterConfig.filter, filterConfig.filters, fnStep,
      innerLoop, structLoop, matchFn, keepB, pT, gT, xT, idIs2, Node.Data,
      Node.Depth, Node.Match, Node.dataId, HTree.children, HTree.id]

/-- The handles produced by walking up the parent chain: the first entry is
the handle of the immediate parent (depth decremented once), and each further
entry decrements the depth once more; the `Match` field rides along. -/
def ancHandles (anc : List HTree) (d : Int) (m : Option Node) : List Node :=
  match anc with
  | [] => []
  | p :: rest => Node.mk (some p) (d - 1) m :: ancHandles rest (d - 1) m

/-- Claim C8 amended: for a handle with a non-null node reference, `Parent(chain)`
returns the first (nearest) strict ancestor, depth decremented by one for each
step up and `Match` preserved, whose find-mode traversal (rooted at that
ancestor's handle) matches the chain, that is, some node of that ancestor's
subtree satisfies the chain; if no ancestor qualifies, it returns a null-node
handle whose depth has been decremented past the root. -/
theorem Parent_first_matching_ancestor (fs : List (Option (Node → Bool)))
    (anc : List HTree) (n : Node) (hn : n.Data ≠ none) :
    ParentFn fs anc n
      = ((ancHandles anc n.Depth n.Match).find?
          (fun a => (findNode a fs).2)).getD
          (Node.mk none (n.Depth - anc.length - 1) n.Match) := by
  induction anc generalizing n with
  | nil =>
    obtain ⟨t, ht⟩ := Option.ne_none_iff_exists'.mp hn
    rw [ParentFn, ht]
    simp [ancHandles]
  | cons p rest ih =>
    obtain ⟨t, ht⟩ := Option.ne_none_iff_exists'.mp hn
    rw [ParentFn, ht]
    show (if (findNode (Node.mk (some p) (n.Depth - 1) n.Match) fs).2 then
        Node.mk (some p) (n.Depth - 1) n.Match
      else ParentFn fs rest (Node.mk (some p) (n.Depth - 1) n.Match)) = _
    rw [ancHandles]
    by_cases hfind : (findNode (Node.mk (some p) (n.Depth - 1) n.Match) fs).2
    · have hfq : (Node.mk (some p) (n.Depth - 1) n.Match
          :: ancHandles rest (n.Depth - 1) n.Match).find?
          (fun a => (findNode a fs).2)
          = some (Node.mk (some p) (n.Depth - 1) n.Match) := by
        simp [List.find?, hfind]
      rw [if_pos hfind, hfq]
      rfl
    · have hfind' : (findNode (Node.mk (some p) (n.Depth - 1) n.Match) fs).2 = false :=
        Bool.eq_false_iff.mpr hfind
      have hfq : (Node.mk (some p) (n.Depth - 1) n.Match
          :: ancHandles rest (n.Depth - 1) n.Match).find?
          (fun a => (findNode a fs).2)
          = (ancHandles rest (n.Depth - 1) n.Match).find?
              (fun a => (findNode a fs).2) := by
        simp [List.find?, hfind']
      rw [if_neg hfind, hfq]
      have hih := ih (Node.mk (some p) (n.Depth - 1) n.Match) (by simp [Node.Data])
      rw [hih]
      show ((ancHandles rest (n.Depth - 1) n.Match).find? _).getD
          (Node.mk none (n.Depth - 1 - rest.length - 1) n.Match) = _
      have harith : n.Depth - 1 - (rest.length : Int) - 1
          = n.Depth - ((p :: rest).length : Int) - 1 := by
        simp
        omega
      rw [harith]

end Htmlutil

namespace Htmlutil

/-- Witness for the amended C8 at a concrete input. -/
theorem Parent_first_matching_ancestor_witness :
    (Node.mk (some xT) 2 none).Data ≠ none
    ∧ ParentFn [some idIs2] [pT, gT] (Node.mk (some xT) 2 none)
      = ((ancHandles [pT, gT] (Node.mk (some xT) 2 none).Depth
            (Node.mk (some xT) 2 none).Match).find?
          (fun a => (findNode a [some idIs2]).2)).getD
          (Node.mk none ((Node.mk (some xT) 2 none).Depth - ([pT, gT].length : Int) - 1)
            (Node.mk (some xT) 2 none).Match) :=
  ⟨by simp [Node.Data],
    Parent_first_matching_ancestor [some idIs2] [pT, gT] _ (by simp [Node.Data])⟩

/-- A handle with a non-null node reference always receives a non-null match
from `filterConfig.match`. -/
theorem matchFn_ne_none (n : Node) (hd : n.Data ≠ none) : matchFn n ≠ none := by
  obtain ⟨t, ht⟩ := Option.ne_none_iff_exists'.mp hd
  rw [matchFn, ht]
  cases hm : n.Match with
  | none => simp
  | some m =>
    by_cases hid : m.dataId == n.dataId
    · simp [hid]
    · simp [hid]

/-- Invariant of the traversal: when the frame handle and all accumulated
entries carry a non-null `Match`, both the result entries and the handles
recorded by the predicate-call trace carry a non-null `Match`. -/
theorem matchInvAll (find : Bool) :
    (∀ (F : List (Node → Bool)) (h : Node) (res tr : List Node),
      h.Match ≠ none → (∀ x ∈ res, x.Match ≠ none) → (∀ x ∈ tr, x.Match ≠ none) →
      (∀ x ∈ (fnStep find F h res tr).1, x.Match ≠ none)
        ∧ (∀ x ∈ (fnStep find F h res tr).2, x.Match ≠ none)) ∧
    (∀ (F : List (Node → Bool)) (cs : List HTree) (d : Int) (m : Option Node)
        (start finish : Nat) (res tr : List Node),
      m ≠ none → (∀ x ∈ res, x.Match ≠ none) → (∀ x ∈ tr, x.Match ≠ none) →
      (∀ x ∈ (structLoop find F cs d m start finish res tr).1, x.Match ≠ none)
        ∧ (∀ x ∈ (structLoop find F cs d m start finish res tr).2, x.Match ≠ none)) ∧
    (∀ (fs : List (Node → Bool)) (cs : List HTree) (d : Int) (m : Option Node)
        (res tr : List Node),
      m ≠ none → (∀ x ∈ res, x.Match ≠ none) → (∀ x ∈ tr, x.Match ≠ none) →
      (∀ x ∈ (innerLoop find fs cs d m res tr).1, x.Match ≠ none)
        ∧ (∀ x ∈ (innerLoop find fs cs d m res tr).2, x.Match ≠ none)) := by
  refine fnStep.mutual_induct find _ _ _ ?c1 ?c2 ?c3 ?c4 ?c5 ?c6 ?c7 ?c8
  case c1 =>
    intro F h res tr hd hm hres htr
    rw [fnStep_none find F h res tr hd]
    exact ⟨hres, htr⟩
  case c2 =>
    intro F h res tr t hd hs hm hres htr
    rw [fnStep_stop find F h res tr t hd hs]
    exact ⟨hres, htr⟩
  case c3 =>
    intro h res tr t hd hs hm hres htr
    rw [fnStep_nilF find h res tr t hd hs]
    refine ⟨?_, htr⟩
    intro x hx
    rcases List.mem_append.mp hx with hx1 | hx1
    · exact hres x hx1
    · rw [List.mem_singleton.mp hx1]
      exact hm
  case c4 =>
    intro h res tr t hd hs f fs
    intro start p1 ih0 ihI ihS hm hres htr
    have htr' : ∀ x ∈ tr ++ [h], x.Match ≠ none := by
      intro x hx
      rcases List.mem_append.mp hx with hx1 | hx1
      · exact htr x hx1
      · rw [List.mem_singleton.mp hx1]
        exact hm
    have hmf : matchFn h ≠ none := matchFn_ne_none h (by rw [hd]; simp)
    have hp1 : (∀ x ∈ p1.1, x.Match ≠ none) ∧ (∀ x ∈ p1.2, x.Match ≠ none) := by
      have hp1eq : p1 = (if f h then
          if fs.isEmpty then fnStep find [] h res (tr ++ [h])
          else innerLoop find fs t.children (h.Depth + 1) (matchFn h) res (tr ++ [h])
        else (res, tr ++ [h])) := rfl
      rw [hp1eq]
      by_cases hf : f h
      · rw [if_pos hf]
        by_cases hfs : fs.isEmpty
        · rw [if_pos hfs]
          exact ih0 hm hres htr'
        · rw [if_neg hfs]
          exact ihI hmf hres htr'
      · rw [if_neg hf]
        exact ⟨hres, htr'⟩
    have hgoal : fnStep find (f :: fs) h res tr
        = structLoop find (f :: fs) t.children (h.Depth + 1) h.Match
            res.length p1.1.length p1.1 p1.2 := by
      rw [fnStep_consF find f fs h res tr t hd hs]
      rfl
    rw [hgoal]
    exact ihS hm hp1.1 hp1.2
  case c5 =>
    intro F d m start finish res tr hm hres htr
    rw [structLoop_nilC]
    exact ⟨hres, htr⟩
  case c6 =>
    intro F d m start finish res tr c cs
    intro p res2 ih1 ih2 hm hres htr
    have hchild : (Node.mk (some c) d m).Match ≠ none := hm
    have hp := ih1 hchild hres htr
    have hres2 : ∀ x ∈ res2, x.Match ≠ none := by
      intro x hx
      have hx' : x ∈ p.1.take finish ++
          (p.1.drop finish).filter (keepB ((p.1.take finish).drop start)) := hx
      rcases List.mem_append.mp hx' with hx1 | hx1
      · exact hp.1 x ((List.take_sublist _ _).subset hx1)
      · have hx2 := List.mem_of_mem_filter hx1
        exact hp.1 x ((List.drop_sublist _ _).subset hx2)
    have hgoal : structLoop find F (c :: cs) d m start finish res tr
        = structLoop find F cs d m start finish res2 p.2 := by
      rw [structLoop_consC]
    rw [hgoal]
    exact ih2 hm hres2 hp.2
  case c7 =>
    intro fs d m res tr hm hres htr
    rw [innerLoop_nilC]
    exact ⟨hres, htr⟩
  case c8 =>
    intro fs d m res tr c cs
    intro p ih1 ih3 hm hres htr
    have hchild : (Node.mk (some c) d m).Match ≠ none := hm
    have hp := ih1 hchild hres htr
    have hgoal : innerLoop find fs (c :: cs) d m res tr
        = innerLoop find fs cs d m p.1 p.2 := by
      rw [innerLoop_consC]
    rw [hgoal]
    exact ih3 hm hp.1 hp.2

end Htmlutil

namespace Htmlutil

/-- Claim C7: for every traversal whose root handle has a non-null node reference,
the traversal root is installed as its own initial match (a handle whose node
reference equals the root's), a fresh match snapshot is installed only when
the underlying node differs from the current match's underlying node, and
every handle in the result as well as every handle passed to a predicate (the
second, trace component of `filterConfig.filter`) carries a non-null `Match`
field, so `Offset` and `MatchDepth` on them never take the null-match branch. -/
theorem traversal_match_never_nil (find : Bool) (root : Node)
    (fs : List (Option (Node → Bool))) (hroot : root.Data ≠ none) :
    (∃ m, matchFn root = some m ∧ m.dataId = root.dataId)
    ∧ (∀ n : Node, n.Data ≠ none →
        ∀ m, n.Match = some m → m.dataId = n.dataId → matchFn n = n.Match)
    ∧ (∀ x ∈ (filterConfig.filter (filterConfig.mk root fs find)).1, x.Match ≠ none)
    ∧ (∀ x ∈ (filterConfig.filter (filterConfig.mk root fs find)).2, x.Match ≠ none) := by
  obtain ⟨t, ht⟩ := Option.ne_none_iff_exists'.mp hroot
  refine ⟨?_, ?_, ?_, ?_⟩
  · rw [matchFn, ht]
    cases hm : root.Match with
    | none =>
      exact ⟨root, rfl, rfl⟩
    | some m =>
      by_cases hid : m.dataId == root.dataId
      · refine ⟨m, by simp [hid], ?_⟩
        simpa using hid
      · exact ⟨root, by simp [hid], rfl⟩
  · intro n hn m hm hid
    obtain ⟨t', ht'⟩ := Option.ne_none_iff_exists'.mp hn
    rw [matchFn, ht', hm]
    simp [hid]
  · intro x hx
    refine ((matchInvAll find).1 (filterConfig.filters (filterConfig.mk root fs find))
      (Node.mk root.Data root.Depth (matchFn root)) [] [] ?_ ?_ ?_).1 x hx
    · show matchFn root ≠ none
      exact matchFn_ne_none root hroot
    · simp
    · simp
  · intro x hx
    refine ((matchInvAll find).1 (filterConfig.filters (filterConfig.mk root fs find))
      (Node.mk root.Data root.Depth (matchFn root)) [] [] ?_ ?_ ?_).2 x hx
    · show matchFn root ≠ none
      exact matchFn_ne_none root hroot
    · simp
    · simp

/-- Witness for C7 at a concrete input. -/
theorem traversal_match_never_nil_witness :
    (Node.mk (some twoT) 0 none).Data ≠ none
    ∧ (∀ x ∈ (filterConfig.filter
        (filterConfig.mk (Node.mk (some twoT) 0 none) [some tagIsA] false)).1,
        x.Match ≠ none)
    ∧ (∀ x ∈ (filterConfig.filter
        (filterConfig.mk (Node.mk (some twoT) 0 none) [some tagIsA] false)).2,
        x.Match ≠ none) :=
  ⟨by simp [Node.Data],
    (traversal_match_never_nil false (Node.mk (some twoT) 0 none) [some tagIsA]
      (by simp [Node.Data])).2.2.1,
    (traversal_match_never_nil false (Node.mk (some twoT) 0 none) [some tagIsA]
      (by simp [Node.Data])).2.2.2⟩

end Htmlutil
